import Mathlib

/-
Verification of the color-analysis core of semhl.nvim (analyze_colors.py).

The Python source is shallowly embedded here:
* the cache-file scanner `load_cache_colors` and the color-literal parser
  `parse_rgb` are modelled as computable functions on strings;
* the numeric statistics engine (`analyze_distribution`,
  `calculate_randomness_score`) is modelled over the real numbers, with
  floating-point arithmetic idealized as real arithmetic;
* the external scipy one-sample Kolmogorov-Smirnov p-value computation is
  an opaque library call in the source; it is abstracted as a parameter
  `pv : ℕ → ℝ → ℝ` (sample size and KS statistic to p-value).  The KS
  statistic itself is modelled concretely by its standard definition,
  which is what scipy computes;
* the external colormath CIEDE2000 color difference and the sRGB→LAB
  conversion are modelled from their published standard formulas, which
  the spec mandates the library conform to.
-/

namespace SemhlAnalyze

/-! ## Cache-file parser (`load_cache_colors`), computable part -/

/-- ASCII whitespace class of Python's regex `\s`. -/
def isWs (c : Char) : Bool :=
  c = ' ' || c = '\t' || c = '\n' || c = '\r' || c = '\x0b' || c = '\x0c'

/-- Hex digit class `[0-9a-fA-F]` of the cache-entry pattern. -/
def isHexDig (c : Char) : Bool :=
  ("0123456789abcdefABCDEF".toList).contains c

/-- Does `pre` occur as a prefix of `l`? -/
def startsWithList : List Char → List Char → Bool
  | [], _ => true
  | _ :: _, [] => false
  | a :: pre, b :: l => a = b && startsWithList pre l

/-- Does `needle` occur as a contiguous substring of `hay`?
(Models Python's `needle in hay`.) -/
def containsSub (needle : List Char) : List Char → Bool
  | [] => startsWithList needle []
  | c :: rest => startsWithList needle (c :: rest) || containsSub needle rest

/-- A line that opens the colors block: it simultaneously contains the
literal key marker, an assignment operator and an opening brace
(source: `'["colors"]' in line and "=" in line and "{" in line`). -/
def isOpenerLine (l : String) : Bool :=
  containsSub ("[\"colors\"]".toList) l.toList
    && containsSub ("=".toList) l.toList
    && containsSub ("\x7b".toList) l.toList

/-- Brace balance of one line: opening braces minus closing braces
(source: `line.count("{") - line.count("}")`). -/
def braceDelta (l : String) : Int :=
  (l.toList.count '\x7b' : Int) - (l.toList.count '\x7d' : Int)

/-- Python-dict style insertion: overwrite the value of an existing key in
place, otherwise append the new binding at the end. -/
def dictInsert : List (String × String) → String → String → List (String × String)
  | [], k, v => [(k, v)]
  | (k0, v0) :: rest, k, v =>
    if k0 = k then (k0, v) :: rest else (k0, v0) :: dictInsert rest k v

/-- Attempt to match the cache-entry pattern
`\["(?P<key>[^"]+)"\]\s*=\s*"(?P<value>#[0-9a-fA-F]<six>)"` anchored at the
head of `cs`.  The pattern is deterministic (no backtracking can change the
outcome), so this direct functional translation is exact. -/
def matchAt (cs : List Char) : Option (String × String) :=
  match cs with
  | '[' :: '"' :: rest =>
    let key := rest.takeWhile (fun c => c ≠ '"')
    if key.isEmpty then none
    else
      match rest.drop key.length with
      | '"' :: ']' :: r2 =>
        match r2.dropWhile isWs with
        | '=' :: r4 =>
          match r4.dropWhile isWs with
          | '"' :: '#' :: r6 =>
            let hex := r6.take 6
            if hex.length = 6 && hex.all isHexDig then
              match r6.drop 6 with
              | '"' :: _ => some (String.mk key, String.mk ('#' :: hex))
              | _ => none
            else none
          | _ => none
        | _ => none
      | _ => none
  | _ => none

/-- Leftmost match of the cache-entry pattern (models `pattern.search`). -/
def findEntryAux : List Char → Option (String × String)
  | [] => none
  | c :: rest =>
    match matchAt (c :: rest) with
    | some kv => some kv
    | none => findEntryAux rest

/-- First cache entry `key → "#RRGGBB"` found on a line, if any. -/
def findEntry (l : String) : Option (String × String) :=
  findEntryAux l.toList

/-- The in-block scanning loop of `load_cache_colors`: starting from brace
depth `d` with accumulated entries `acc`, each line first updates the depth
by its brace balance; if the depth drops to `≤ 0` scanning stops, otherwise
the line is matched against the entry pattern. -/
def scanLoop : Int → List (String × String) → List String → List (String × String)
  | _, acc, [] => acc
  | d, acc, l :: rest =>
    let d2 := d + braceDelta l
    if d2 ≤ 0 then acc
    else
      scanLoop d2
        (match findEntry l with
          | some kv => dictInsert acc kv.1 kv.2
          | none => acc) rest

/-- Full scan of the file's lines: seek the opener line, then run the
in-block loop.  Returns (block was found, recorded entries). -/
def scanColors : List String → Bool × List (String × String)
  | [] => (false, [])
  | l :: rest =>
    if isOpenerLine l then (true, scanLoop (braceDelta l) [] rest)
    else scanColors rest

/-- Failure conditions of `load_cache_colors`: the path is not a regular
file (`FileNotFoundError`), no colors block was found, or the block had no
entries (the two `ValueError`s of the source). -/
inductive CacheError where
  | fileNotFound
  | blockNotFound
  | blockEmpty
deriving DecidableEq

/-- `load_cache_colors`.  The filesystem is abstracted: `none` models a
path that does not resolve to a regular file, `some lines` models the
file's line sequence. -/
def load_cache_colors : Option (List String) → Except CacheError (List (String × String))
  | none => .error .fileNotFound
  | some lines =>
    let r := scanColors lines
    if r.1 = false then .error .blockNotFound
    else if r.2 = [] then .error .blockEmpty
    else .ok r.2

/-- Lines of the colors block per the claim's words: starting from the
depth left by the opener line, keep lines strictly before the first line
at which the running depth (updated by each line's brace balance) drops
to `≤ 0`. -/
def blockLines : Int → List String → List String
  | _, [] => []
  | d, l :: rest =>
    let d2 := d + braceDelta l
    if d2 ≤ 0 then [] else l :: blockLines d2 rest

/-- Modelled from the spec (claim C7's description of the result): the
mapping built from the lines strictly after the first opener line and
strictly before the line closing the block, recording every line that
matches the entry pattern, last write winning for duplicate keys. -/
def specColorsMapping (lines : List String) : List (String × String) :=
  match lines.dropWhile (fun l => !isOpenerLine l) with
  | [] => []
  | opener :: after =>
    ((blockLines (braceDelta opener) after).filterMap findEntry).foldl
      (fun m kv => dictInsert m kv.1 kv.2) []

/-! ## Color-literal parser (`parse_rgb`) -/

/-- The three `ValueError` cases of `parse_rgb`; all three are the
spec's MalformedColorLiteral error. -/
inductive MalformedColorLiteral where
  | wrongComponentCount
  | nonIntegerComponent
  | outOfRange
deriving DecidableEq

/-- Lower-case hex digit test used by the hex branch of `parse_rgb`
(the input has already been lower-cased). -/
def isLhex (c : Char) : Bool :=
  ("0123456789abcdef".toList).contains c

/-- Numeric value of one lower-case hex digit. -/
def hexVal (c : Char) : ℤ :=
  if c = '0' then 0 else if c = '1' then 1 else if c = '2' then 2
  else if c = '3' then 3 else if c = '4' then 4 else if c = '5' then 5
  else if c = '6' then 6 else if c = '7' then 7 else if c = '8' then 8
  else if c = '9' then 9 else if c = 'a' then 10 else if c = 'b' then 11
  else if c = 'c' then 12 else if c = 'd' then 13 else if c = 'e' then 14
  else 15

/-- Python's `str.strip()`: drop whitespace at both ends. -/
def stripChars (cs : List Char) : List Char :=
  ((cs.dropWhile isWs).reverse.dropWhile isWs).reverse

/-- Python's `str.split()` (no separator): split on whitespace runs,
discarding empty parts.  `acc` holds the current part, reversed. -/
def splitWsAux : List Char → List Char → List (List Char)
  | acc, [] => if acc.isEmpty then [] else [acc.reverse]
  | acc, c :: rest =>
    if isWs c then
      if acc.isEmpty then splitWsAux [] rest
      else acc.reverse :: splitWsAux [] rest
    else splitWsAux (c :: acc) rest

/-- Decimal-digit accumulator for Python's `int()`. -/
def decDigitsAux : ℤ → List Char → Option ℤ
  | acc, [] => some acc
  | acc, c :: rest =>
    if c.isDigit then decDigitsAux (acc * 10 + ((c.toNat : ℤ) - 48)) rest else none

/-- Python's `int()` on an already-whitespace-free token: an optional
sign followed by at least one decimal digit. -/
def pyToInt : List Char → Option ℤ
  | [] => none
  | '-' :: rest => (match rest with
      | [] => none
      | _ => (decDigitsAux 0 rest).map (fun n => -n))
  | '+' :: rest => (match rest with
      | [] => none
      | _ => decDigitsAux 0 rest)
  | cs => decDigitsAux 0 cs

/-- The comma/whitespace-triple branch of `parse_rgb`: replace commas by
spaces, split on whitespace, require exactly three integer components,
each in [0,255]. -/
def parseTriple (stripped : List Char) : Except MalformedColorLiteral (ℤ × ℤ × ℤ) :=
  let parts := splitWsAux [] (stripped.map (fun c => if c = ',' then ' ' else c))
  match parts with
  | [p1, p2, p3] =>
    match pyToInt p1, pyToInt p2, pyToInt p3 with
    | some r, some g, some b =>
      if 0 ≤ r ∧ r ≤ 255 ∧ 0 ≤ g ∧ g ≤ 255 ∧ 0 ≤ b ∧ b ≤ 255 then .ok (r, g, b)
      else .error .outOfRange
    | _, _, _ => .error .nonIntegerComponent
  | _ => .error .wrongComponentCount

/-- `parse_rgb`: strip surrounding whitespace, lower-case, drop a leading
`#`; a six-hex-digit string is decoded directly, anything else goes
through the integer-triple branch. -/
def parse_rgb (value : String) : Except MalformedColorLiteral (ℤ × ℤ × ℤ) :=
  let stripped1 := (stripChars value.toList).map Char.toLower
  let stripped := match stripped1 with
    | '#' :: rest => rest
    | cs => cs
  match stripped with
  | [c0, c1, c2, c3, c4, c5] =>
    if isLhex c0 && isLhex c1 && isLhex c2 && isLhex c3 && isLhex c4 && isLhex c5 then
      .ok (16 * hexVal c0 + hexVal c1, 16 * hexVal c2 + hexVal c3, 16 * hexVal c4 + hexVal c5)
    else parseTriple stripped
  | _ => parseTriple stripped

/-! ## Statistics engine (over ℝ; floats idealized as reals) -/

noncomputable section

/-- `np.max` on a list of reals (the empty case never occurs behind the
source's guards; 0 is a placeholder). -/
def npMax : List ℝ → ℝ
  | [] => 0
  | x :: xs => xs.foldl max x

/-- `np.min` on a list of reals. -/
def npMin : List ℝ → ℝ
  | [] => 0
  | x :: xs => xs.foldl min x

/-- `np.mean`: sum divided by length. -/
def npMean (l : List ℝ) : ℝ := l.sum / l.length

/-- `np.std` (population standard deviation, ddof = 0). -/
def npStd (l : List ℝ) : ℝ :=
  Real.sqrt ((l.map (fun x => (x - npMean l) ^ 2)).sum / l.length)

/-- `np.sort` (ascending). -/
def sortList (l : List ℝ) : List ℝ := l.insertionSort (· ≤ ·)

/-- `np.diff`: consecutive differences. -/
def diffs : List ℝ → List ℝ
  | x :: y :: rest => (y - x) :: diffs (y :: rest)
  | _ => []

/-- CDF of the uniform distribution on [0,1] (scipy's `uniform`). -/
def uniformCdf (x : ℝ) : ℝ := max 0 (min 1 x)

/-- Terms `(i+1)/n - F(x_(i))` of the one-sided KS statistic `D⁺`,
for the sorted sample starting at index `i`. -/
def ksTermsPlus (n : ℝ) : ℕ → List ℝ → List ℝ
  | _, [] => []
  | i, x :: rest => (((i : ℝ) + 1) / n - uniformCdf x) :: ksTermsPlus n (i + 1) rest

/-- Terms `F(x_(i)) - i/n` of the one-sided KS statistic `D⁻`. -/
def ksTermsMinus (n : ℝ) : ℕ → List ℝ → List ℝ
  | _, [] => []
  | i, x :: rest => (uniformCdf x - (i : ℝ) / n) :: ksTermsMinus n (i + 1) rest

/-- One-sample Kolmogorov-Smirnov statistic against Uniform(0,1), exactly
as scipy computes it: sort the sample, take the larger of the two
one-sided maximal deviations between empirical and uniform CDF. -/
def ksStat (xs : List ℝ) : ℝ :=
  let sorted := sortList xs
  let n : ℝ := xs.length
  max (npMax (ksTermsPlus n 0 sorted)) (npMax (ksTermsMinus n 0 sorted))

/-- Min-max normalization to [0,1] used before the uniformity test
(source: `(values_array - val_min) / (val_max - val_min)`). -/
def normalizeList (values : List ℝ) : List ℝ :=
  values.map (fun x => (x - npMin values) / (npMax values - npMin values))

/-- The coefficient-of-variation entry: `std/|mean|` whenever the mean is
nonzero, absent otherwise. -/
def cvOpt (values : List ℝ) : Option ℝ :=
  if npMean values = 0 then none else some (npStd values / |npMean values|)

/-- Classification from the KS test results (source: `p > 0.05` →
uniform-like, else `stat < 0.2` → fairly uniform, else non-uniform). -/
def distType (p s : ℝ) : String :=
  if 0.05 < p then "uniform-like"
  else if s < 0.2 then "fairly uniform"
  else "non-uniform"

/-- Result dictionary of `analyze_distribution`: the classification tag
plus the optional KS statistic, KS p-value, coefficient of variation and
uniformity score entries. -/
structure DistAnalysis where
  type : String
  ks_statistic : Option ℝ
  ks_pvalue : Option ℝ
  cv : Option ℝ
  uniformity_score : Option ℝ
deriving DecidableEq

/-- `analyze_distribution`.  `pv n s` abstracts scipy's p-value for a
one-sample KS test with sample size `n` and statistic `s` (an external
library computation the source treats as a black box). -/
def analyze_distribution (pv : ℕ → ℝ → ℝ) (values : List ℝ) : DistAnalysis :=
  if values.length < 3 then ⟨"insufficient data", none, none, none, none⟩
  else if npMax values - npMin values = 0 then ⟨"constant", none, none, none, some 0⟩
  else if 8 ≤ values.length then
    ⟨distType (pv values.length (ksStat (normalizeList values))) (ksStat (normalizeList values)),
      some (ksStat (normalizeList values)),
      some (pv values.length (ksStat (normalizeList values))),
      cvOpt values, none⟩
  else ⟨"unknown", none, none, cvOpt values, none⟩

/-! ## Randomness score (`calculate_randomness_score`) -/

/-- Per-channel uniformity contribution as a function of the KS statistic
(source: `ks_score = max(0, 100 * (1 - ks)); uniformity_score += ks_score / 4`). -/
def uniformityContribOfStat (s : ℝ) : ℝ := max 0 (100 * (1 - s)) / 4

/-- Per-channel uniformity contribution: channels whose distribution
analysis has no KS statistic contribute 0. -/
def uniformityContrib (pv : ℕ → ℝ → ℝ) (values : List ℝ) : ℝ :=
  match (analyze_distribution pv values).ks_statistic with
  | some s => uniformityContribOfStat s
  | none => 0

/-- Uniformity sub-score: the four channels' contributions summed, capped
at 25. -/
def uniformityScore (pv : ℕ → ℝ → ℝ) (l a b d : List ℝ) : ℝ :=
  min 25 (uniformityContrib pv l + uniformityContrib pv a + uniformityContrib pv b
    + uniformityContrib pv d)

/-- Coverage sub-score: spans of the three LAB channels relative to their
nominal ranges, averaged and scaled by 25. -/
def coverageScore (l a b : List ℝ) : ℝ :=
  25 * ((npMax l - npMin l) / 100 + (npMax a - npMin a) / 255 + (npMax b - npMin b) / 255) / 3

/-- Coefficient of variation of the gaps between sorted ΔE samples;
set to 0 when the gap mean is not positive. -/
def gapCv (d : List ℝ) : ℝ :=
  let spacing := diffs (sortList d)
  if 0 < npMean spacing then npStd spacing / npMean spacing else 0

/-- Spacing-consistency sub-score: present-and-valued or absent, exactly
as the source conditionally appends it to `scores`. -/
def spacingScoreOpt (d : List ℝ) : Option ℝ :=
  if 1 < d.length then
    if 0 < (diffs (sortList d)).length then
      some (25 * Real.exp (-|gapCv d - 0.75|))
    else none
  else none

/-- Equal-width histogram bin index over `[mn, mn + w]` with 10 bins, the
last bin closed (models `np.histogram(values, bins=10)` for in-range
data). -/
def binIdx (mn w x : ℝ) : ℕ := min 9 (Int.toNat ⌊10 * (x - mn) / w⌋)

/-- Count of samples landing in bin `i` of the 10-bin histogram over the
sample's own range. -/
def histCount (values : List ℝ) (i : ℕ) : ℕ :=
  (values.filter
    (fun x => binIdx (npMin values) (npMax values - npMin values) x = i)).length

/-- The nonempty histogram bins (models `hist = hist[hist > 0]`). -/
def entropyBins (values : List ℝ) : Finset ℕ :=
  (Finset.range 10).filter (fun i => histCount values i ≠ 0)

/-- Total count over the nonempty bins (models `hist.sum()`). -/
def entropyTotal (values : List ℝ) : ℝ :=
  ∑ i ∈ entropyBins values, (histCount values i : ℝ)

/-- Shannon entropy (bits) over the nonempty histogram bins
(source: `probs = hist / hist.sum(); -np.sum(probs * np.log2(probs))`). -/
def entropyOf (values : List ℝ) : ℝ :=
  -(∑ i ∈ entropyBins values,
      ((histCount values i : ℝ) / entropyTotal values)
        * Real.logb 2 ((histCount values i : ℝ) / entropyTotal values))

/-- Entropy sub-score: present only with at least 5 samples; the three
LAB channels' normalized entropies averaged and scaled by 25. -/
def entropyScoreOpt (l a b : List ℝ) : Option ℝ :=
  if 5 ≤ l.length then
    some (25 * (entropyOf l / Real.logb 2 10 + entropyOf a / Real.logb 2 10
      + entropyOf b / Real.logb 2 10) / 3)
  else none

/-- The `scores` list accumulated by `calculate_randomness_score`: the
uniformity and coverage sub-scores always, the spacing and entropy
sub-scores only when their guards hold. -/
def randomnessScores (pv : ℕ → ℝ → ℝ) (l a b d : List ℝ) : List ℝ :=
  [uniformityScore pv l a b d, coverageScore l a b]
    ++ (spacingScoreOpt d).toList ++ (entropyScoreOpt l a b).toList

/-- `calculate_randomness_score`: 0 for fewer than 3 samples, otherwise
the sum of the accumulated sub-scores. -/
def calculate_randomness_score (pv : ℕ → ℝ → ℝ) (l a b d : List ℝ) : ℝ :=
  if l.length < 3 then 0 else (randomnessScores pv l a b d).sum

/-! ## sRGB → LAB conversion and the CIEDE2000 color difference

The source delegates these to the colormath library; the spec mandates
conformance to the published standard formulas, which are modelled here. -/

/-- A CIELAB color. -/
structure LabColor where
  l : ℝ
  a : ℝ
  b : ℝ

/-- sRGB inverse-gamma (linearization) of one channel in [0,1]. -/
def gammaExpand (u : ℝ) : ℝ :=
  if u ≤ 0.04045 then u / 12.92 else ((u + 0.055) / 1.055) ^ (2.4 : ℝ)

/-- The CIELAB nonlinear encoding function. -/
def labF (t : ℝ) : ℝ :=
  if 216 / 24389 < t then t ^ ((1 : ℝ) / 3) else ((24389 / 27) * t + 16) / 116

/-- `rgb_to_lab`: sRGB integers in [0,255] → XYZ (D65) → CIELAB. -/
def rgb_to_lab (r g b : ℝ) : LabColor :=
  let rl := gammaExpand (r / 255)
  let gl := gammaExpand (g / 255)
  let bl := gammaExpand (b / 255)
  let x := 0.4124564 * rl + 0.3575761 * gl + 0.1804375 * bl
  let y := 0.2126729 * rl + 0.7151522 * gl + 0.0721750 * bl
  let z := 0.0193339 * rl + 0.1191920 * gl + 0.9503041 * bl
  let fx := labF (x / 0.95047)
  let fy := labF (y / 1.0)
  let fz := labF (z / 1.08883)
  ⟨116 * fy - 16, 500 * (fx - fy), 200 * (fy - fz)⟩

/-- Two-argument arctangent, in radians, range (-π, π]. -/
def atan2 (y x : ℝ) : ℝ :=
  if 0 < x then Real.arctan (y / x)
  else if x < 0 then
    (if 0 ≤ y then Real.arctan (y / x) + Real.pi else Real.arctan (y / x) - Real.pi)
  else if 0 < y then Real.pi / 2
  else if y < 0 then -(Real.pi / 2)
  else 0

/-- Degrees to radians. -/
def deg2rad (d : ℝ) : ℝ := d * (Real.pi / 180)

/-- Hue angle `h' = atan2(b, a')` in degrees, shifted into [0, 360). -/
def hueAngle (ap b : ℝ) : ℝ :=
  let h := atan2 b ap * (180 / Real.pi)
  if h < 0 then h + 360 else h

/-- CIEDE2000 hue difference `Δh'` (degrees), with the standard
wrap-around case analysis. -/
def dhpF (c1p c2p h1p h2p : ℝ) : ℝ :=
  if c1p * c2p = 0 then 0
  else if |h2p - h1p| ≤ 180 then h2p - h1p
  else if 180 < h2p - h1p then h2p - h1p - 360
  else h2p - h1p + 360

/-- CIEDE2000 mean hue `h̄'` (degrees), with the standard wrap-around
case analysis. -/
def hbarpF (c1p c2p h1p h2p : ℝ) : ℝ :=
  if c1p * c2p = 0 then h1p + h2p
  else if |h1p - h2p| ≤ 180 then (h1p + h2p) / 2
  else if h1p + h2p < 360 then (h1p + h2p + 360) / 2
  else (h1p + h2p - 360) / 2

/-- CIEDE2000 hue weighting function `T` of the mean hue (degrees). -/
def tF (hbarp : ℝ) : ℝ :=
  1 - 0.17 * Real.cos (deg2rad (hbarp - 30)) + 0.24 * Real.cos (deg2rad (2 * hbarp))
    + 0.32 * Real.cos (deg2rad (3 * hbarp + 6)) - 0.20 * Real.cos (deg2rad (4 * hbarp - 63))

/-- CIEDE2000 lightness weight `S_L` of the two L values. -/
def slF (l1 l2 : ℝ) : ℝ :=
  1 + 0.015 * ((l1 + l2) / 2 - 50) ^ 2 / Real.sqrt (20 + ((l1 + l2) / 2 - 50) ^ 2)

/-- CIEDE2000 chroma weight `S_C` of the two adjusted chromas. -/
def scF (c1p c2p : ℝ) : ℝ := 1 + 0.045 * ((c1p + c2p) / 2)

/-- CIEDE2000 hue weight `S_H`. -/
def shF (c1p c2p h1p h2p : ℝ) : ℝ :=
  1 + 0.015 * ((c1p + c2p) / 2) * tF (hbarpF c1p c2p h1p h2p)

/-- CIEDE2000 hue difference term `ΔH'`. -/
def bigHF (c1p c2p h1p h2p : ℝ) : ℝ :=
  2 * Real.sqrt (c1p * c2p) * Real.sin (deg2rad (dhpF c1p c2p h1p h2p) / 2)

/-- CIEDE2000 rotation term `R_T`. -/
def rtF (c1p c2p h1p h2p : ℝ) : ℝ :=
  -(2 * Real.sqrt (((c1p + c2p) / 2) ^ 7 / (((c1p + c2p) / 2) ^ 7 + 25 ^ 7))
    * Real.sin (deg2rad (2 * (30
        * Real.exp (-(((hbarpF c1p c2p h1p h2p - 275) / 25) ^ 2))))))

/-- CIEDE2000 as a function of the two L values and the adjusted chromas
and hues (everything downstream of the `a'` adjustment). -/
def de00core (l1 l2 c1p c2p h1p h2p : ℝ) : ℝ :=
  Real.sqrt (((l2 - l1) / slF l1 l2) ^ 2
    + ((c2p - c1p) / scF c1p c2p) ^ 2
    + (bigHF c1p c2p h1p h2p / shF c1p c2p h1p h2p) ^ 2
    + rtF c1p c2p h1p h2p * ((c2p - c1p) / scF c1p c2p)
        * (bigHF c1p c2p h1p h2p / shF c1p c2p h1p h2p))

/-- The chroma-adjustment factor `G` of a pair of LAB colors. -/
def gFactor (x y : LabColor) : ℝ :=
  (1 - Real.sqrt ((((Real.sqrt (x.a ^ 2 + x.b ^ 2) + Real.sqrt (y.a ^ 2 + y.b ^ 2)) / 2) ^ 7)
    / ((((Real.sqrt (x.a ^ 2 + x.b ^ 2) + Real.sqrt (y.a ^ 2 + y.b ^ 2)) / 2) ^ 7 + 25 ^ 7))))
  / 2

/-- Adjusted `a'` of the first color of the pair. -/
def aPrime (x y : LabColor) : ℝ := (1 + gFactor x y) * x.a

/-- Adjusted chroma `C'` of the first color of the pair. -/
def cPrime (x y : LabColor) : ℝ := Real.sqrt (aPrime x y ^ 2 + x.b ^ 2)

/-- Adjusted hue `h'` of the first color of the pair. -/
def hPrime (x y : LabColor) : ℝ := hueAngle (aPrime x y) x.b

/-- CIEDE2000 color difference between two LAB colors. -/
def delta_e_cie2000 (x y : LabColor) : ℝ :=
  de00core x.l y.l (cPrime x y) (cPrime y x) (hPrime x y) (hPrime y x)

/-- `delta_e`: ΔE (CIEDE2000) between two RGB triples, via LAB. -/
def delta_e (rgb bg : ℝ × ℝ × ℝ) : ℝ :=
  delta_e_cie2000 (rgb_to_lab rgb.1 rgb.2.1 rgb.2.2) (rgb_to_lab bg.1 bg.2.1 bg.2.2)

end

/-! ## Helper lemmas about list folds (np.max / np.min) -/

theorem le_foldl_max (xs : List ℝ) (a : ℝ) : a ≤ xs.foldl max a := by
  induction xs generalizing a with
  | nil => exact le_refl a
  | cons x xs ih => exact le_trans (le_max_left a x) (ih (max a x))

theorem mem_le_foldl_max (xs : List ℝ) (a : ℝ) : ∀ x ∈ xs, x ≤ xs.foldl max a := by
  induction xs generalizing a with
  | nil => intro x hx; cases hx
  | cons y ys ih =>
    intro x hx
    rcases List.mem_cons.mp hx with rfl | hx
    · exact le_trans (le_max_right a x) (le_foldl_max ys (max a x))
    · exact ih (max a y) x hx

theorem foldl_max_mem (xs : List ℝ) (a : ℝ) : xs.foldl max a = a ∨ xs.foldl max a ∈ xs := by
  induction xs generalizing a with
  | nil => exact Or.inl rfl
  | cons x xs ih =>
    rw [List.foldl_cons]
    rcases ih (max a x) with h | h
    · rw [h]
      rcases max_choice a x with h2 | h2 <;> rw [h2]
      · exact Or.inl rfl
      · exact Or.inr (List.mem_cons_self x xs)
    · exact Or.inr (List.mem_cons_of_mem x h)

theorem foldl_min_le (xs : List ℝ) (a : ℝ) : xs.foldl min a ≤ a := by
  induction xs generalizing a with
  | nil => exact le_refl a
  | cons x xs ih => exact le_trans (ih (min a x)) (min_le_left a x)

theorem foldl_min_le_mem (xs : List ℝ) (a : ℝ) : ∀ x ∈ xs, xs.foldl min a ≤ x := by
  induction xs generalizing a with
  | nil => intro x hx; cases hx
  | cons y ys ih =>
    intro x hx
    rcases List.mem_cons.mp hx with rfl | hx
    · exact le_trans (foldl_min_le ys (min a x)) (min_le_right a x)
    · exact ih (min a y) x hx

theorem foldl_min_mem (xs : List ℝ) (a : ℝ) : xs.foldl min a = a ∨ xs.foldl min a ∈ xs := by
  induction xs generalizing a with
  | nil => exact Or.inl rfl
  | cons x xs ih =>
    rw [List.foldl_cons]
    rcases ih (min a x) with h | h
    · rw [h]
      rcases min_choice a x with h2 | h2 <;> rw [h2]
      · exact Or.inl rfl
      · exact Or.inr (List.mem_cons_self x xs)
    · exact Or.inr (List.mem_cons_of_mem x h)

theorem le_npMax_of_mem {l : List ℝ} {x : ℝ} (hx : x ∈ l) : x ≤ npMax l := by
  cases l with
  | nil => cases hx
  | cons y ys =>
    rcases List.mem_cons.mp hx with rfl | hx
    · exact le_foldl_max ys x
    · exact mem_le_foldl_max ys y x hx

theorem npMin_le_of_mem {l : List ℝ} {x : ℝ} (hx : x ∈ l) : npMin l ≤ x := by
  cases l with
  | nil => cases hx
  | cons y ys =>
    rcases List.mem_cons.mp hx with rfl | hx
    · exact foldl_min_le ys x
    · exact foldl_min_le_mem ys y x hx

theorem npMax_mem {l : List ℝ} (h : l ≠ []) : npMax l ∈ l := by
  cases l with
  | nil => exact absurd rfl h
  | cons y ys =>
    rcases foldl_max_mem ys y with h2 | h2
    · rw [npMax, h2]; exact List.mem_cons_self y ys
    · exact List.mem_cons_of_mem y h2

theorem npMin_mem {l : List ℝ} (h : l ≠ []) : npMin l ∈ l := by
  cases l with
  | nil => exact absurd rfl h
  | cons y ys =>
    rcases foldl_min_mem ys y with h2 | h2
    · rw [npMin, h2]; exact List.mem_cons_self y ys
    · exact List.mem_cons_of_mem y h2

theorem npMin_le_npMax {l : List ℝ} (h : l ≠ []) : npMin l ≤ npMax l :=
  le_npMax_of_mem (npMin_mem h)

theorem npMax_le {l : List ℝ} {c : ℝ} (h : l ≠ []) (hb : ∀ x ∈ l, x ≤ c) :
    npMax l ≤ c := hb _ (npMax_mem h)

theorem le_npMin {l : List ℝ} {c : ℝ} (h : l ≠ []) (hb : ∀ x ∈ l, c ≤ x) :
    c ≤ npMin l := hb _ (npMin_mem h)

/-- For a nonempty sample, a zero range is the same as all samples being
equal. -/
theorem range_eq_zero_iff_allEq {l : List ℝ} (h : l ≠ []) :
    npMax l - npMin l = 0 ↔ ∀ x ∈ l, ∀ y ∈ l, x = y := by
  constructor
  · intro h0 x hx y hy
    have h1 : npMin l ≤ x := npMin_le_of_mem hx
    have h2 : x ≤ npMax l := le_npMax_of_mem hx
    have h3 : npMin l ≤ y := npMin_le_of_mem hy
    have h4 : y ≤ npMax l := le_npMax_of_mem hy
    linarith
  · intro hall
    have h1 := hall _ (npMax_mem h) _ (npMin_mem h)
    linarith [h1]

/-! ## Claim theorems -/

/-- Claim C9: `parse_rgb` returns (255, 0, 0) for each of "255,0,0",
"255 0 0", "ff0000" and "#FF0000", and fails with a
MalformedColorLiteral error for each of "256,0,0", "1,2" and "zz0000". -/
theorem claim_C9_parse_rgb_examples :
    parse_rgb "255,0,0" = .ok (255, 0, 0) ∧
    parse_rgb "255 0 0" = .ok (255, 0, 0) ∧
    parse_rgb "ff0000" = .ok (255, 0, 0) ∧
    parse_rgb "#FF0000" = .ok (255, 0, 0) ∧
    parse_rgb "256,0,0" = .error .outOfRange ∧
    parse_rgb "1,2" = .error .wrongComponentCount ∧
    parse_rgb "zz0000" = .error .wrongComponentCount := by
  refine ⟨?_, ?_, ?_, ?_, ?_, ?_, ?_⟩ <;> rfl

/-! ## Cache-parser lemmas and claims C6, C7 -/

theorem scanColors_found (lines : List String) :
    (scanColors lines).1 = true ↔ ∃ l ∈ lines, isOpenerLine l = true := by
  induction lines with
  | nil => simp [scanColors]
  | cons l rest ih =>
    by_cases h : isOpenerLine l = true
    · simp [scanColors, h]
    · simp [scanColors, h, ih]

theorem scanLoop_eq (rest : List String) : ∀ (d : Int) (acc : List (String × String)),
    scanLoop d acc rest =
      ((blockLines d rest).filterMap findEntry).foldl (fun m kv => dictInsert m kv.1 kv.2) acc := by
  induction rest with
  | nil => intro d acc; simp [scanLoop, blockLines]
  | cons l rest ih =>
    intro d acc
    by_cases hd : d + braceDelta l ≤ 0
    · simp [scanLoop, blockLines, hd]
    · cases hfe : findEntry l with
      | none => simp [scanLoop, blockLines, hd, hfe, ih]
      | some kv => simp [scanLoop, blockLines, hd, hfe, ih]

theorem scanColors_eq_spec (lines : List String) :
    (∃ l ∈ lines, isOpenerLine l = true) →
    (scanColors lines).2 = specColorsMapping lines := by
  induction lines with
  | nil => simp
  | cons l rest ih =>
    intro hex
    by_cases h : isOpenerLine l = true
    · simp [scanColors, h, specColorsMapping, List.dropWhile_cons, scanLoop_eq]
    · have hrest : ∃ l2 ∈ rest, isOpenerLine l2 = true := by
        rcases hex with ⟨l2, hmem, hop⟩
        rcases List.mem_cons.mp hmem with rfl | hmem2
        · exact absurd hop h
        · exact ⟨l2, hmem2, hop⟩
      have := ih hrest
      simp [scanColors, h, specColorsMapping, List.dropWhile_cons] at this ⊢
      exact this

/-- Claim C6: `load_cache_colors` fails in exactly three cases — the path
is not a regular file (before any scanning), end of file without ever
entering the colors block, and a found-but-empty block; otherwise it
succeeds. -/
theorem claim_C6_load_cache_error_cases :
    load_cache_colors none = .error .fileNotFound ∧
    (∀ lines, load_cache_colors (some lines) = .error .blockNotFound ↔
        ¬ ∃ l ∈ lines, isOpenerLine l = true) ∧
    (∀ lines, load_cache_colors (some lines) = .error .blockEmpty ↔
        ((∃ l ∈ lines, isOpenerLine l = true) ∧ (scanColors lines).2 = [])) ∧
    (∀ lines, (∃ cs, load_cache_colors (some lines) = .ok cs) ↔
        ((∃ l ∈ lines, isOpenerLine l = true) ∧ (scanColors lines).2 ≠ [])) := by
  refine ⟨rfl, ?_, ?_, ?_⟩ <;>
    · intro lines
      have hiff := scanColors_found lines
      by_cases he : (scanColors lines).2 = [] <;>
        cases hf : (scanColors lines).1 <;>
          simp [load_cache_colors, hf, he, ← hiff]

/-- Counterexample to claim C7 as stated: on a file whose colors block is
present but empty, `load_cache_colors` raises the empty-block error
instead of returning the (empty) mapping described by the claim. -/
theorem claim_C7_counterexample :
    specColorsMapping ["[\"colors\"] = \x7b", "\x7d"] = [] ∧
    load_cache_colors (some ["[\"colors\"] = \x7b", "\x7d"]) = .error .blockEmpty ∧
    load_cache_colors (some ["[\"colors\"] = \x7b", "\x7d"]) ≠
      .ok (specColorsMapping ["[\"colors\"] = \x7b", "\x7d"]) := by
  refine ⟨rfl, rfl, ?_⟩
  intro h
  exact Except.noConfusion h

/-- Claim C7 (amended): whenever an opener line exists and at least one
entry is recorded, `load_cache_colors` returns exactly the mapping built
from the lines strictly between the opener line and the line at which the
brace depth drops to nonpositive, matching the entry pattern per line,
last write winning for duplicate keys (when no entry is recorded it
raises the empty-block error instead, per C6). -/
theorem claim_C7_block_extraction (lines : List String)
    (h1 : ∃ l ∈ lines, isOpenerLine l = true)
    (h2 : specColorsMapping lines ≠ []) :
    load_cache_colors (some lines) = .ok (specColorsMapping lines) := by
  have hfound : (scanColors lines).1 = true := (scanColors_found lines).mpr h1
  have heq : (scanColors lines).2 = specColorsMapping lines := scanColors_eq_spec lines h1
  simp [load_cache_colors, hfound, heq, h2]

/-- Witness for C7 on the spec's own example block, with a line of
unrelated junk before the opener. -/
theorem claim_C7_block_extraction_witness :
    load_cache_colors (some ["junk", "[\"colors\"] = \x7b",
        "  [\"foo\"] = \"#FF0000\",", "  [\"bar\"] = \"#00FF00\",", "\x7d"]) =
      .ok (specColorsMapping ["junk", "[\"colors\"] = \x7b",
        "  [\"foo\"] = \"#FF0000\",", "  [\"bar\"] = \"#00FF00\",", "\x7d"]) :=
  claim_C7_block_extraction _ ⟨"[\"colors\"] = \x7b", by decide, by decide⟩ (by decide)

/-! ## Spacing sub-score lemmas and claims C3, C10 -/

theorem length_sortList (l : List ℝ) : (sortList l).length = l.length :=
  List.length_insertionSort _ l

theorem mem_sortList {l : List ℝ} {x : ℝ} : x ∈ sortList l ↔ x ∈ l :=
  (List.perm_insertionSort _ l).mem_iff

theorem diffs_length (l : List ℝ) : (diffs l).length = l.length - 1 := by
  induction l with
  | nil => rfl
  | cons x rest ih =>
    cases rest with
    | nil => rfl
    | cons y rest2 =>
      rw [diffs]
      simpa using ih

theorem diffs_of_allEq {c : ℝ} (l : List ℝ) (h : ∀ x ∈ l, x = c) :
    diffs l = List.replicate (l.length - 1) 0 := by
  induction l with
  | nil => rfl
  | cons x rest ih =>
    cases rest with
    | nil => rfl
    | cons y rest2 =>
      rw [diffs]
      have hx : x = c := h x (by simp)
      have hy : y = c := h y (by simp)
      have hrest : ∀ z ∈ y :: rest2, z = c := fun z hz => h z (List.mem_cons_of_mem x hz)
      rw [ih hrest]
      simp [hx, hy, List.replicate_succ]

theorem npMean_replicate_zero (k : ℕ) : npMean (List.replicate k (0 : ℝ)) = 0 := by
  simp [npMean, List.sum_replicate]

/-- Counterexample to claim C3 as stated: with exactly 2 ΔE samples the
spacing sub-score is NOT absent — it is present (with the single gap's
CV equal to 0) and appears in the accumulated scores list. -/
theorem claim_C3_counterexample :
    spacingScoreOpt [(0 : ℝ), 1] = some (25 * Real.exp (-0.75)) ∧
    25 * Real.exp (-0.75) ∈
      randomnessScores (fun _ _ => 0) [0, 1, 2] [0, 1, 2] [0, 1, 2] [(0 : ℝ), 1] := by
  have hsorted : sortList [(0 : ℝ), 1] = [0, 1] :=
    List.Sorted.insertionSort_eq (by norm_num [List.sorted_cons])
  have hdiffs : diffs [(0 : ℝ), 1] = [1] := by
    rw [diffs]
    norm_num [diffs]
  have hmean : npMean [(1 : ℝ)] = 1 := by

    norm_num [npMean]
  have hstd : npStd [(1 : ℝ)] = 0 := by
    rw [npStd, hmean]
    norm_num [Real.sqrt_zero]
  have hcv : gapCv [(0 : ℝ), 1] = 0 := by
    rw [gapCv, hsorted, hdiffs]
    rw [if_pos (by rw [hmean]; norm_num)]
    rw [hstd, hmean]
    norm_num
  have habs : |(0 : ℝ) - 0.75| = 0.75 := by
    rw [zero_sub, abs_neg, abs_of_nonneg] <;> norm_num
  have hsp : spacingScoreOpt [(0 : ℝ), 1] = some (25 * Real.exp (-0.75)) := by
    rw [spacingScoreOpt]
    rw [if_pos (by norm_num), if_pos (by rw [hsorted, hdiffs]; norm_num)]
    rw [hcv, habs]
  refine ⟨hsp, ?_⟩
  simp [randomnessScores, hsp]

/-- Claim C3 (amended): the spacing-consistency sub-score is omitted from
the accumulated scores (contributing nothing, not zero) exactly when
fewer than 2 ΔE samples exist; with exactly 2 ΔE samples it IS present
(the source guard is `len(delta_e_array) > 1`). -/
theorem claim_C3_spacing_omitted_iff (pv : ℕ → ℝ → ℝ) (l a b d : List ℝ)
    (hl : 3 ≤ l.length) :
    (spacingScoreOpt d = none ↔ d.length < 2) ∧
    (spacingScoreOpt d = none →
      randomnessScores pv l a b d =
        [uniformityScore pv l a b d, coverageScore l a b] ++ (entropyScoreOpt l a b).toList) := by
  constructor
  · constructor
    · intro h
      by_contra hlen
      push_neg at hlen
      have h1 : 1 < d.length := hlen
      have h2 : 0 < (diffs (sortList d)).length := by
        rw [diffs_length, length_sortList]
        omega
      simp [spacingScoreOpt, h1, h2] at h
    · intro h
      have h1 : ¬ 1 < d.length := by omega
      simp [spacingScoreOpt, h1]
  · intro h
    simp [randomnessScores, h]

/-- Witness for C3: with a single ΔE sample the spacing term is absent
and the scores list consists of the other sub-scores only. -/
theorem claim_C3_spacing_omitted_iff_witness :
    spacingScoreOpt [(5 : ℝ)] = none ∧
    randomnessScores (fun _ _ => 0) [0, 1, 2] [0, 1, 2] [0, 1, 2] [(5 : ℝ)] =
      [uniformityScore (fun _ _ => 0) [0, 1, 2] [0, 1, 2] [0, 1, 2] [(5 : ℝ)],
        coverageScore [0, 1, 2] [0, 1, 2] [0, 1, 2]] ++
        (entropyScoreOpt [0, 1, 2] [0, 1, 2] [0, 1, 2]).toList := by
  have h := claim_C3_spacing_omitted_iff (fun _ _ => 0) [0, 1, 2] [0, 1, 2] [0, 1, 2]
    [(5 : ℝ)] (by norm_num)
  have hnone : spacingScoreOpt [(5 : ℝ)] = none := h.1.mpr (by norm_num)
  exact ⟨hnone, h.2 hnone⟩

/-- Claim C10: with at least 3 samples all ΔE values equal, the spacing
sub-score is still included and equals `25 · exp(−0.75)`: the gap mean is
0, which sets the gap CV to 0 instead of omitting the term. -/
theorem claim_C10_constant_deltaE_spacing (pv : ℕ → ℝ → ℝ) (l a b d : List ℝ)
    (hl : 3 ≤ l.length) (hd : 3 ≤ d.length)
    (hall : ∀ x ∈ d, ∀ y ∈ d, x = y) :
    spacingScoreOpt d = some (25 * Real.exp (-0.75)) ∧
    25 * Real.exp (-0.75) ∈ randomnessScores pv l a b d := by
  have hdne : d ≠ [] := by
    intro h
    rw [h] at hd
    simp at hd
  obtain ⟨e, he⟩ : ∃ e, e ∈ d := by
    cases d with
    | nil => exact absurd rfl hdne
    | cons x rest => exact ⟨x, by simp⟩
  have hallsort : ∀ x ∈ sortList d, x = e := by
    intro x hx
    exact hall x (mem_sortList.mp hx) e he
  have hsp : diffs (sortList d) = List.replicate ((sortList d).length - 1) 0 :=
    diffs_of_allEq (sortList d) hallsort
  have hcv : gapCv d = 0 := by
    rw [gapCv, hsp, length_sortList, npMean_replicate_zero]
    rw [if_neg (by norm_num)]
  have habs : |(0 : ℝ) - 0.75| = 0.75 := by
    rw [zero_sub, abs_neg, abs_of_nonneg] <;> norm_num
  have hval : spacingScoreOpt d = some (25 * Real.exp (-0.75)) := by
    rw [spacingScoreOpt]
    rw [if_pos (by omega), if_pos (by rw [diffs_length, length_sortList]; omega)]
    rw [hcv, habs]
  refine ⟨hval, ?_⟩
  simp [randomnessScores, hval]

/-- Witness for C10 on three equal ΔE samples. -/
theorem claim_C10_constant_deltaE_spacing_witness :
    spacingScoreOpt [(1 : ℝ), 1, 1] = some (25 * Real.exp (-0.75)) ∧
    25 * Real.exp (-0.75) ∈
      randomnessScores (fun _ _ => 0) [0, 1, 2] [0, 1, 2] [0, 1, 2] [(1 : ℝ), 1, 1] :=
  claim_C10_constant_deltaE_spacing (fun _ _ => 0) [0, 1, 2] [0, 1, 2] [0, 1, 2]
    [(1 : ℝ), 1, 1] (by norm_num) (by norm_num)
    (by intro x hx y hy; simp at hx hy; rw [hx, hy])

/-! ## Distribution-analysis lemmas and claims C4, C5 -/

theorem normalizeList_bounds {values : List ℝ} (hne : values ≠ [])
    (hnc : npMax values - npMin values ≠ 0) :
    ∀ x ∈ normalizeList values, 0 ≤ x ∧ x ≤ 1 := by
  intro y hy
  rcases List.mem_map.mp hy with ⟨x, hx, rfl⟩
  have h1 : npMin values ≤ x := npMin_le_of_mem hx
  have h2 : x ≤ npMax values := le_npMax_of_mem hx
  have h3 : npMin values ≤ npMax values := npMin_le_npMax hne
  have hpos : 0 < npMax values - npMin values := by
    rcases eq_or_lt_of_le h3 with he | hlt
    · exact absurd (by rw [he]; ring) hnc
    · linarith
  constructor
  · exact div_nonneg (by linarith) (le_of_lt hpos)
  · rw [div_le_one hpos]
    linarith

theorem length_pos_ne_nil {values : List ℝ} (h : 3 ≤ values.length) : values ≠ [] := by
  intro hnil
  rw [hnil] at h
  simp at h

/-- Counterexample to claim C4 as stated: a two-element sample has a
nonzero mean, yet `analyze_distribution` reports no coefficient of
variation (the insufficient-data early return carries no `cv` entry). -/
theorem claim_C4_counterexample :
    (analyze_distribution (fun _ _ => 0) [(5 : ℝ), 5]).cv = none ∧
    npMean [(5 : ℝ), 5] = 5 ∧ npMean [(5 : ℝ), 5] ≠ 0 := by
  refine ⟨?_, ?_, ?_⟩
  · rw [analyze_distribution, if_pos (by norm_num)]
  · rw [npMean]
    norm_num
  · rw [npMean]
    norm_num

/-- Claim C4 (amended): the coefficient of variation (std/|mean|) is
reported exactly when the sample has at least 3 elements, is not
constant, and has nonzero mean; the insufficient-data and constant early
returns carry no cv even when the mean is nonzero. -/
theorem claim_C4_cv_reported (pv : ℕ → ℝ → ℝ) (values : List ℝ) :
    (analyze_distribution pv values).cv =
      (if 3 ≤ values.length ∧ ¬ (∀ x ∈ values, ∀ y ∈ values, x = y) ∧ npMean values ≠ 0
        then some (npStd values / |npMean values|) else none) := by
  by_cases h3 : values.length < 3
  · rw [analyze_distribution, if_pos h3, if_neg]
    intro hc
    omega
  · have h3le : 3 ≤ values.length := by omega
    have hne : values ≠ [] := length_pos_ne_nil h3le
    by_cases hall : ∀ x ∈ values, ∀ y ∈ values, x = y
    · have hc : npMax values - npMin values = 0 := (range_eq_zero_iff_allEq hne).mpr hall
      rw [analyze_distribution, if_neg h3, if_pos hc, if_neg]
      intro hcond
      exact hcond.2.1 hall
    · have hc : npMax values - npMin values ≠ 0 := by
        intro h0
        exact hall ((range_eq_zero_iff_allEq hne).mp h0)
      have hcv : (analyze_distribution pv values).cv = cvOpt values := by
        rw [analyze_distribution, if_neg h3, if_neg hc]
        by_cases h8 : 8 ≤ values.length
        · rw [if_pos h8]
        · rw [if_neg h8]
      rw [hcv, cvOpt]
      by_cases hm : npMean values = 0
      · rw [if_pos hm, if_neg]
        intro hcond
        exact hcond.2.2 hm
      · rw [if_neg hm, if_pos ⟨h3le, hall, hm⟩]

/-- Claim C5: the full classification case analysis of
`analyze_distribution` — insufficient data below 3 samples; constant
(uniformity score 0) for ≥3 equal samples; for ≥8 non-constant samples a
KS test on the min-max normalized (into [0,1]) sample with the stated
p-value/statistic thresholds; `unknown` with no KS test for 3-7
non-constant samples. -/
theorem claim_C5_classification (pv : ℕ → ℝ → ℝ) (values : List ℝ) :
    (values.length < 3 →
      analyze_distribution pv values = ⟨"insufficient data", none, none, none, none⟩) ∧
    (3 ≤ values.length → (∀ x ∈ values, ∀ y ∈ values, x = y) →
      analyze_distribution pv values = ⟨"constant", none, none, none, some 0⟩) ∧
    (8 ≤ values.length → ¬ (∀ x ∈ values, ∀ y ∈ values, x = y) →
      ((analyze_distribution pv values).ks_statistic = some (ksStat (normalizeList values)) ∧
        (∀ x ∈ normalizeList values, 0 ≤ x ∧ x ≤ 1) ∧
        (0.05 < pv values.length (ksStat (normalizeList values)) →
          (analyze_distribution pv values).type = "uniform-like") ∧
        (¬ 0.05 < pv values.length (ksStat (normalizeList values)) →
          ksStat (normalizeList values) < 0.2 →
          (analyze_distribution pv values).type = "fairly uniform") ∧
        (¬ 0.05 < pv values.length (ksStat (normalizeList values)) →
          ¬ ksStat (normalizeList values) < 0.2 →
          (analyze_distribution pv values).type = "non-uniform"))) ∧
    (3 ≤ values.length → values.length < 8 → ¬ (∀ x ∈ values, ∀ y ∈ values, x = y) →
      (analyze_distribution pv values).type = "unknown" ∧
      (analyze_distribution pv values).ks_statistic = none) := by
  refine ⟨?_, ?_, ?_, ?_⟩
  · intro h3
    rw [analyze_distribution, if_pos h3]
  · intro h3 hall
    have hne : values ≠ [] := length_pos_ne_nil h3
    have hc : npMax values - npMin values = 0 := (range_eq_zero_iff_allEq hne).mpr hall
    rw [analyze_distribution, if_neg (by omega), if_pos hc]
  · intro h8 hall
    have h3 : 3 ≤ values.length := by omega
    have hne : values ≠ [] := length_pos_ne_nil h3
    have hc : npMax values - npMin values ≠ 0 := by
      intro h0
      exact hall ((range_eq_zero_iff_allEq hne).mp h0)
    have heq : analyze_distribution pv values =
        ⟨distType (pv values.length (ksStat (normalizeList values)))
            (ksStat (normalizeList values)),
          some (ksStat (normalizeList values)),
          some (pv values.length (ksStat (normalizeList values))),
          cvOpt values, none⟩ := by
      rw [analyze_distribution, if_neg (by omega), if_neg hc, if_pos h8]
    refine ⟨by rw [heq], normalizeList_bounds hne hc, ?_, ?_, ?_⟩
    · intro hp
      rw [heq]
      show distType _ _ = _
      rw [distType, if_pos hp]
    · intro hp hs
      rw [heq]
      show distType _ _ = _
      rw [distType, if_neg hp, if_pos hs]
    · intro hp hs
      rw [heq]
      show distType _ _ = _
      rw [distType, if_neg hp, if_neg hs]
  · intro h3 h8 hall
    have hne : values ≠ [] := length_pos_ne_nil h3
    have hc : npMax values - npMin values ≠ 0 := by
      intro h0
      exact hall ((range_eq_zero_iff_allEq hne).mp h0)
    rw [analyze_distribution, if_neg (by omega), if_neg hc, if_neg (by omega)]
    exact ⟨rfl, rfl⟩

/-- Witness for C5: a two-element sample is classified as insufficient
data. -/
theorem claim_C5_classification_witness :
    analyze_distribution (fun _ _ => 0) [(0 : ℝ), 0] =
      ⟨"insufficient data", none, none, none, none⟩ :=
  (claim_C5_classification (fun _ _ => 0) [(0 : ℝ), 0]).1 (by norm_num)

/-! ## KS-statistic bounds and claim C2 -/

theorem uniformCdf_nonneg (x : ℝ) : 0 ≤ uniformCdf x := le_max_left 0 _

theorem uniformCdf_le_one (x : ℝ) : uniformCdf x ≤ 1 :=
  max_le zero_le_one (min_le_left 1 x)

theorem npMax_le_of_nonneg_bound {l : List ℝ} {c : ℝ} (hc : 0 ≤ c)
    (hb : ∀ x ∈ l, x ≤ c) : npMax l ≤ c := by
  cases l with
  | nil => exact hc
  | cons y ys => exact npMax_le (by simp) hb

theorem ksTermsPlus_le (nn : ℕ) (l : List ℝ) : ∀ (i : ℕ), i + l.length ≤ nn →
    ∀ t ∈ ksTermsPlus (nn : ℝ) i l, t ≤ 1 := by
  induction l with
  | nil =>
    intro i hi t ht
    cases ht
  | cons x rest ih =>
    intro i hi t ht
    rw [ksTermsPlus] at ht
    rcases List.mem_cons.mp ht with rfl | ht2
    · have h1 : (0 : ℝ) ≤ uniformCdf x := uniformCdf_nonneg x
      have h2 : ((i : ℝ) + 1) / nn ≤ 1 := by
        apply div_le_one_of_le₀
        · have : (i + 1 : ℕ) ≤ nn := by
            simp at hi
            omega
          exact_mod_cast this
        · positivity
      linarith
    · exact ih (i + 1) (by simp at hi ⊢; omega) t ht2

theorem ksTermsMinus_le (nn : ℕ) (l : List ℝ) : ∀ (i : ℕ),
    ∀ t ∈ ksTermsMinus (nn : ℝ) i l, t ≤ 1 := by
  induction l with
  | nil =>
    intro i t ht
    cases ht
  | cons x rest ih =>
    intro i t ht
    rw [ksTermsMinus] at ht
    rcases List.mem_cons.mp ht with rfl | ht2
    · have h1 : uniformCdf x ≤ 1 := uniformCdf_le_one x
      have h2 : (0 : ℝ) ≤ (i : ℝ) / nn := by positivity
      linarith
    · exact ih (i + 1) t ht2

/-- The KS statistic as computed never exceeds 1. -/
theorem ksStat_le_one (xs : List ℝ) : ksStat xs ≤ 1 := by
  simp only [ksStat]
  apply max_le
  · apply npMax_le_of_nonneg_bound zero_le_one
    intro t ht
    apply ksTermsPlus_le xs.length (sortList xs) 0 _ t ht
    rw [length_sortList]
    omega
  · apply npMax_le_of_nonneg_bound zero_le_one
    intro t ht
    exact ksTermsMinus_le xs.length (sortList xs) 0 t ht

/-- The only way `analyze_distribution` reports a KS statistic is the
KS-test branch, whose statistic is that of the normalized sample. -/
theorem ks_statistic_eq_of_some {pv : ℕ → ℝ → ℝ} {v : List ℝ} {s : ℝ}
    (h : (analyze_distribution pv v).ks_statistic = some s) :
    s = ksStat (normalizeList v) := by
  rw [analyze_distribution] at h
  split_ifs at h <;> simp at h
  exact h.symm

/-- Counterexample to claim C2 as stated: by the source's own formula a
perfectly uniform channel (KS statistic 0) contributes
`max(0, 100·(1−0))/4 = 25` points to the uniformity total, not 25/4. -/
theorem claim_C2_counterexample :
    uniformityContribOfStat 0 = 25 ∧ uniformityContribOfStat 0 ≠ 25 / 4 := by
  rw [uniformityContribOfStat]
  norm_num [max_def]

/-- Claim C2 (amended): a channel whose distribution analysis yields a KS
statistic `s` contributes `100·(1−s)/4` to the uniformity total (the
`max(0,·)` clamp never fires because `s ≤ 1`), so a perfectly uniform
channel would contribute 25 points (not 25/4); channels without a KS
statistic contribute 0; the summed total is capped at 25. -/
theorem claim_C2_uniformity_contribution (pv : ℕ → ℝ → ℝ) (v l a b d : List ℝ) (s : ℝ) :
    ((analyze_distribution pv v).ks_statistic = some s →
      uniformityContrib pv v = 100 * (1 - s) / 4) ∧
    uniformityContribOfStat 0 = 25 ∧
    ((analyze_distribution pv v).ks_statistic = none → uniformityContrib pv v = 0) ∧
    uniformityScore pv l a b d ≤ 25 := by
  refine ⟨?_, by rw [uniformityContribOfStat]; norm_num [max_def], ?_, min_le_left _ _⟩
  · intro h
    have hs : s = ksStat (normalizeList v) := ks_statistic_eq_of_some h
    have hle : s ≤ 1 := by
      rw [hs]
      exact ksStat_le_one _
    simp only [uniformityContrib, h, uniformityContribOfStat]
    rw [max_eq_right (by linarith)]
  · intro h
    simp only [uniformityContrib, h]

/-- Witness for C2 on a concrete 8-sample non-constant channel. -/
theorem claim_C2_uniformity_contribution_witness :
    uniformityContrib (fun _ _ => 0) [(0 : ℝ), 0, 0, 0, 0, 0, 0, 7] =
      100 * (1 - ksStat (normalizeList [(0 : ℝ), 0, 0, 0, 0, 0, 0, 7])) / 4 := by
  have hmax : npMax [(0 : ℝ), 0, 0, 0, 0, 0, 0, 7] = 7 := by
    norm_num [npMax, max_def]
  have hmin : npMin [(0 : ℝ), 0, 0, 0, 0, 0, 0, 7] = 0 := by
    norm_num [npMin, min_def]
  have hks : (analyze_distribution (fun _ _ => 0) [(0 : ℝ), 0, 0, 0, 0, 0, 0, 7]).ks_statistic
      = some (ksStat (normalizeList [(0 : ℝ), 0, 0, 0, 0, 0, 0, 7])) := by
    rw [analyze_distribution, if_neg (by norm_num),
      if_neg (by rw [hmax, hmin]; norm_num), if_pos (by norm_num)]
  exact (claim_C2_uniformity_contribution (fun _ _ => 0) [(0 : ℝ), 0, 0, 0, 0, 0, 0, 7]
    [] [] [] [] (ksStat (normalizeList [(0 : ℝ), 0, 0, 0, 0, 0, 0, 7]))).1 hks

/-! ## CIEDE2000 symmetry and identity (claim C8) -/

theorem slF_symm (l1 l2 : ℝ) : slF l2 l1 = slF l1 l2 := by
  rw [slF, slF, add_comm l2 l1]

theorem scF_symm (c1 c2 : ℝ) : scF c2 c1 = scF c1 c2 := by
  rw [scF, scF, add_comm c2 c1]

theorem hbarpF_swap (c1 c2 h1 h2 : ℝ) : hbarpF c2 c1 h2 h1 = hbarpF c1 c2 h1 h2 := by
  rw [hbarpF, hbarpF, mul_comm c2 c1, abs_sub_comm h2 h1, add_comm h2 h1]

theorem shF_symm (c1 c2 h1 h2 : ℝ) : shF c2 c1 h2 h1 = shF c1 c2 h1 h2 := by
  rw [shF, shF, hbarpF_swap, add_comm c2 c1]

theorem rtF_symm (c1 c2 h1 h2 : ℝ) : rtF c2 c1 h2 h1 = rtF c1 c2 h1 h2 := by
  rw [rtF, rtF, hbarpF_swap, add_comm c2 c1]

theorem dhpF_swap (c1 c2 h1 h2 : ℝ) : dhpF c2 c1 h2 h1 = -(dhpF c1 c2 h1 h2) := by
  rw [dhpF, dhpF]
  by_cases hc : c1 * c2 = 0
  · rw [if_pos (by rw [mul_comm]; exact hc), if_pos hc]
    ring
  · rw [if_neg (by rw [mul_comm]; exact hc), if_neg hc]
    by_cases habs : |h2 - h1| ≤ 180
    · rw [if_pos (by rw [abs_sub_comm]; exact habs), if_pos habs]
      ring
    · rw [if_neg (by rw [abs_sub_comm]; exact habs), if_neg habs]
      rcases lt_or_le 180 (h2 - h1) with hgt | hle
      · rw [if_pos hgt, if_neg (by linarith)]
        ring
      · have hlt : h2 - h1 < -180 := by
          rcases lt_abs.mp (lt_of_not_le habs) with h | h
          · linarith
          · linarith
        rw [if_pos (show (180 : ℝ) < h1 - h2 by linarith),
          if_neg (show ¬ (180 : ℝ) < h2 - h1 by linarith)]
        ring

theorem bigHF_swap (c1 c2 h1 h2 : ℝ) : bigHF c2 c1 h2 h1 = -(bigHF c1 c2 h1 h2) := by
  rw [bigHF, bigHF, mul_comm c2 c1, dhpF_swap]
  simp only [deg2rad, neg_mul, neg_div, Real.sin_neg]
  ring

theorem de00core_swap (l1 l2 c1 c2 h1 h2 : ℝ) :
    de00core l2 l1 c2 c1 h2 h1 = de00core l1 l2 c1 c2 h1 h2 := by
  rw [de00core, de00core, slF_symm, scF_symm, shF_symm, rtF_symm, bigHF_swap]
  congr 1
  ring

theorem delta_e_cie2000_symm (x y : LabColor) :
    delta_e_cie2000 x y = delta_e_cie2000 y x := by
  rw [delta_e_cie2000, delta_e_cie2000]
  exact (de00core_swap x.l y.l (cPrime x y) (cPrime y x) (hPrime x y) (hPrime y x)).symm

theorem dhpF_self (c h : ℝ) : dhpF c c h h = 0 := by
  rw [dhpF]
  by_cases hc : c * c = 0
  · rw [if_pos hc]
  · rw [if_neg hc, if_pos (by rw [sub_self, abs_zero]; norm_num)]
    ring

theorem bigHF_self (c h : ℝ) : bigHF c c h h = 0 := by
  rw [bigHF, dhpF_self]
  simp [deg2rad]

theorem delta_e_cie2000_self (x : LabColor) : delta_e_cie2000 x x = 0 := by
  rw [delta_e_cie2000, de00core, bigHF_self]
  simp

/-- Claim C8: the perceptual color difference computed by `delta_e` is
symmetric in its two RGB arguments and equals 0 on identical arguments. -/
theorem claim_C8_delta_e_symmetric_and_zero :
    (∀ x y : ℝ × ℝ × ℝ, delta_e x y = delta_e y x) ∧
    (∀ x : ℝ × ℝ × ℝ, delta_e x x = 0) := by
  constructor
  · intro x y
    rw [delta_e, delta_e]
    exact delta_e_cie2000_symm _ _
  · intro x
    rw [delta_e]
    exact delta_e_cie2000_self _

/-! ## Sub-score bounds and claim C1 -/

theorem histCount_cast_pos {v : List ℝ} {i : ℕ} (hi : i ∈ entropyBins v) :
    (0 : ℝ) < (histCount v i : ℝ) := by
  have hne : histCount v i ≠ 0 := (Finset.mem_filter.mp hi).2
  exact_mod_cast Nat.pos_of_ne_zero hne

theorem histCount_le_entropyTotal {v : List ℝ} {i : ℕ} (hi : i ∈ entropyBins v) :
    (histCount v i : ℝ) ≤ entropyTotal v := by
  rw [entropyTotal]
  exact @Finset.single_le_sum ℕ ℝ _ (fun j => (histCount v j : ℝ)) (entropyBins v)
    (fun j _ => by positivity) i hi

theorem entropyTotal_pos {v : List ℝ} (hS : (entropyBins v).Nonempty) :
    0 < entropyTotal v := by
  obtain ⟨i, hi⟩ := hS
  exact lt_of_lt_of_le (histCount_cast_pos hi) (histCount_le_entropyTotal hi)

theorem entropyOf_nonneg (v : List ℝ) : 0 ≤ entropyOf v := by
  rw [entropyOf, neg_nonneg]
  apply Finset.sum_nonpos
  intro i hi
  have hc := histCount_cast_pos hi
  have hn := histCount_le_entropyTotal hi
  have htot : (0 : ℝ) < entropyTotal v := lt_of_lt_of_le hc hn
  have hp0 : 0 ≤ (histCount v i : ℝ) / entropyTotal v := by positivity
  have hp1 : (histCount v i : ℝ) / entropyTotal v ≤ 1 := by
    rw [div_le_one htot]
    exact hn
  exact mul_nonpos_iff.mpr (Or.inl ⟨hp0, Real.logb_nonpos (by norm_num) hp0 hp1⟩)

theorem entropyBins_card_le (v : List ℝ) : (entropyBins v).card ≤ 10 := by
  rw [entropyBins]
  calc ((Finset.range 10).filter (fun i => histCount v i ≠ 0)).card
      ≤ (Finset.range 10).card := Finset.card_filter_le _ _
    _ = 10 := Finset.card_range 10

theorem entropyOf_le (v : List ℝ) : entropyOf v ≤ Real.logb 2 10 := by
  by_cases hS : (entropyBins v).Nonempty
  · have hn_pos : 0 < entropyTotal v := entropyTotal_pos hS
    have hlog2 : (0 : ℝ) < Real.log 2 := Real.log_pos (by norm_num)
    have hppos : ∀ i ∈ entropyBins v, 0 < (histCount v i : ℝ) / entropyTotal v :=
      fun i hi => div_pos (histCount_cast_pos hi) hn_pos
    have hsum1 : ∑ i ∈ entropyBins v, (histCount v i : ℝ) / entropyTotal v = 1 := by
      rw [← Finset.sum_div, ← entropyTotal, div_self (ne_of_gt hn_pos)]
    have hjensen :
        ∑ i ∈ entropyBins v, ((histCount v i : ℝ) / entropyTotal v)
            • Real.log (((histCount v i : ℝ) / entropyTotal v)⁻¹)
          ≤ Real.log (∑ i ∈ entropyBins v, ((histCount v i : ℝ) / entropyTotal v)
            • ((histCount v i : ℝ) / entropyTotal v)⁻¹) := by
      apply (strictConcaveOn_log_Ioi.concaveOn).le_map_sum
      · intro i hi
        positivity
      · exact hsum1
      · intro i hi
        exact Set.mem_Ioi.mpr (inv_pos.mpr (hppos i hi))
    have hinner : ∑ i ∈ entropyBins v, ((histCount v i : ℝ) / entropyTotal v)
        • ((histCount v i : ℝ) / entropyTotal v)⁻¹ = ((entropyBins v).card : ℝ) := by
      rw [Finset.sum_congr rfl
        (fun i hi => by rw [smul_eq_mul, mul_inv_cancel₀ (ne_of_gt (hppos i hi))])]
      rw [Finset.sum_const, nsmul_eq_mul, mul_one]
    have hEmul : entropyOf v * Real.log 2 =
        ∑ i ∈ entropyBins v, ((histCount v i : ℝ) / entropyTotal v)
          * Real.log (((histCount v i : ℝ) / entropyTotal v)⁻¹) := by
      rw [entropyOf, neg_mul, Finset.sum_mul, ← Finset.sum_neg_distrib]
      apply Finset.sum_congr rfl
      intro i hi
      rw [Real.log_inv, Real.logb]
      field_simp
      ring
    have hcard1 : (1 : ℝ) ≤ ((entropyBins v).card : ℝ) := by
      have := Finset.card_pos.mpr hS
      exact_mod_cast this
    have hcard10 : ((entropyBins v).card : ℝ) ≤ 10 := by
      exact_mod_cast entropyBins_card_le v
    have hkey : entropyOf v * Real.log 2 ≤ Real.log 10 := by
      calc entropyOf v * Real.log 2
          = ∑ i ∈ entropyBins v, ((histCount v i : ℝ) / entropyTotal v)
            * Real.log (((histCount v i : ℝ) / entropyTotal v)⁻¹) := hEmul
        _ ≤ Real.log (((entropyBins v).card : ℝ)) := by
            have := hjensen
            rw [hinner] at this
            simpa [smul_eq_mul] using this
        _ ≤ Real.log 10 := Real.log_le_log (by linarith) hcard10
    rw [Real.logb, le_div_iff₀ hlog2]
    exact hkey
  · rw [Finset.not_nonempty_iff_eq_empty] at hS
    have h0 : entropyOf v = 0 := by
      rw [entropyOf, hS]
      simp
    rw [h0]
    exact Real.logb_nonneg (by norm_num) (by norm_num)

theorem entropyScoreOpt_bounds {l a b : List ℝ} {s : ℝ}
    (h : entropyScoreOpt l a b = some s) : 0 ≤ s ∧ s ≤ 25 := by
  rw [entropyScoreOpt] at h
  split_ifs at h
  injection h with h
  subst h
  have hM : 0 < Real.logb 2 10 := Real.logb_pos (by norm_num) (by norm_num)
  have hb1 : 0 ≤ entropyOf l / Real.logb 2 10 :=
    div_nonneg (entropyOf_nonneg l) (le_of_lt hM)
  have hb2 : 0 ≤ entropyOf a / Real.logb 2 10 :=
    div_nonneg (entropyOf_nonneg a) (le_of_lt hM)
  have hb3 : 0 ≤ entropyOf b / Real.logb 2 10 :=
    div_nonneg (entropyOf_nonneg b) (le_of_lt hM)
  have hu1 : entropyOf l / Real.logb 2 10 ≤ 1 := by
    rw [div_le_one hM]
    exact entropyOf_le l
  have hu2 : entropyOf a / Real.logb 2 10 ≤ 1 := by
    rw [div_le_one hM]
    exact entropyOf_le a
  have hu3 : entropyOf b / Real.logb 2 10 ≤ 1 := by
    rw [div_le_one hM]
    exact entropyOf_le b
  constructor <;> linarith

theorem spacingScoreOpt_bounds {d : List ℝ} {s : ℝ}
    (h : spacingScoreOpt d = some s) : 0 ≤ s ∧ s ≤ 25 := by
  rw [spacingScoreOpt] at h
  split_ifs at h
  injection h with h
  subst h
  have h1 : Real.exp (-|gapCv d - 0.75|) ≤ 1 := by
    have := Real.exp_le_exp.mpr (neg_nonpos.mpr (abs_nonneg (gapCv d - 0.75)))
    rwa [Real.exp_zero] at this
  have h2 := Real.exp_pos (-|gapCv d - 0.75|)
  constructor <;> linarith

theorem uniformityContrib_nonneg (pv : ℕ → ℝ → ℝ) (v : List ℝ) :
    0 ≤ uniformityContrib pv v := by
  rw [uniformityContrib]
  cases h : (analyze_distribution pv v).ks_statistic with
  | none => exact le_refl 0
  | some s =>
    show 0 ≤ uniformityContribOfStat s
    rw [uniformityContribOfStat]
    positivity

theorem uniformityScore_bounds (pv : ℕ → ℝ → ℝ) (l a b d : List ℝ) :
    0 ≤ uniformityScore pv l a b d ∧ uniformityScore pv l a b d ≤ 25 := by
  constructor
  · rw [uniformityScore]
    apply le_min (by norm_num)
    have h1 := uniformityContrib_nonneg pv l
    have h2 := uniformityContrib_nonneg pv a
    have h3 := uniformityContrib_nonneg pv b
    have h4 := uniformityContrib_nonneg pv d
    linarith
  · exact min_le_left _ _

theorem coverageScore_bounds {l a b : List ℝ}
    (hl : l ≠ []) (ha : a ≠ []) (hb : b ≠ [])
    (hLb : ∀ x ∈ l, 0 ≤ x ∧ x ≤ 100)
    (hab : ∀ x ∈ a, -128 ≤ x ∧ x ≤ 127)
    (hbb : ∀ x ∈ b, -128 ≤ x ∧ x ≤ 127) :
    0 ≤ coverageScore l a b ∧ coverageScore l a b ≤ 25 := by
  have hl1 : npMin l ≤ npMax l := npMin_le_npMax hl
  have hl2 : npMax l ≤ 100 := npMax_le hl (fun x hx => (hLb x hx).2)
  have hl3 : 0 ≤ npMin l := le_npMin hl (fun x hx => (hLb x hx).1)
  have ha1 : npMin a ≤ npMax a := npMin_le_npMax ha
  have ha2 : npMax a ≤ 127 := npMax_le ha (fun x hx => (hab x hx).2)
  have ha3 : -128 ≤ npMin a := le_npMin ha (fun x hx => (hab x hx).1)
  have hb1 : npMin b ≤ npMax b := npMin_le_npMax hb
  have hb2 : npMax b ≤ 127 := npMax_le hb (fun x hx => (hbb x hx).2)
  have hb3 : -128 ≤ npMin b := le_npMin hb (fun x hx => (hbb x hx).1)
  rw [coverageScore]
  constructor <;> [skip; skip] <;>
    · have e1 : (npMax l - npMin l) / 100 ≤ 1 := by
        rw [div_le_one (by norm_num)]
        linarith
      have e2 : (npMax a - npMin a) / 255 ≤ 1 := by
        rw [div_le_one (by norm_num)]
        linarith
      have e3 : (npMax b - npMin b) / 255 ≤ 1 := by
        rw [div_le_one (by norm_num)]
        linarith
      have f1 : 0 ≤ (npMax l - npMin l) / 100 := div_nonneg (by linarith) (by norm_num)
      have f2 : 0 ≤ (npMax a - npMin a) / 255 := div_nonneg (by linarith) (by norm_num)
      have f3 : 0 ≤ (npMax b - npMin b) / 255 := div_nonneg (by linarith) (by norm_num)
      linarith

/-- Claim C1: with four equal-length channels whose L values lie in
[0,100] and whose a and b values lie in [-128,127], the composite
randomness score lies in [0,100]; with fewer than 3 samples it is
exactly 0. -/
theorem claim_C1_randomness_score_range (pv : ℕ → ℝ → ℝ) (l a b d : List ℝ)
    (hla : a.length = l.length) (hlb : b.length = l.length) (hld : d.length = l.length)
    (hL : ∀ x ∈ l, 0 ≤ x ∧ x ≤ 100)
    (ha : ∀ x ∈ a, -128 ≤ x ∧ x ≤ 127)
    (hb : ∀ x ∈ b, -128 ≤ x ∧ x ≤ 127) :
    0 ≤ calculate_randomness_score pv l a b d ∧
    calculate_randomness_score pv l a b d ≤ 100 ∧
    (l.length < 3 → calculate_randomness_score pv l a b d = 0) := by
  by_cases h3 : l.length < 3
  · rw [calculate_randomness_score, if_pos h3]
    exact ⟨le_refl 0, by norm_num, fun _ => rfl⟩
  · have hlen : 3 ≤ l.length := by omega
    have hlne : l ≠ [] := length_pos_ne_nil hlen
    have hane : a ≠ [] := by
      intro h
      rw [h] at hla
      simp at hla
      omega
    have hbne : b ≠ [] := by
      intro h
      rw [h] at hlb
      simp at hlb
      omega
    have hu := uniformityScore_bounds pv l a b d
    have hc := coverageScore_bounds hlne hane hbne hL ha hb
    rw [calculate_randomness_score, if_neg h3, randomnessScores]
    refine ⟨?_, ?_, fun hlt => absurd hlt h3⟩ <;>
      · cases hs : spacingScoreOpt d with
        | none =>
          cases he : entropyScoreOpt l a b with
          | none =>
            simp only [Option.toList, List.append_nil, List.sum_cons, List.sum_nil,
              List.cons_append, List.nil_append]
            linarith [hu.1, hu.2, hc.1, hc.2]
          | some es =>
            have hes := entropyScoreOpt_bounds he
            simp only [Option.toList, List.sum_cons, List.sum_nil, List.sum_append,
              List.cons_append, List.nil_append]
            linarith [hu.1, hu.2, hc.1, hc.2, hes.1, hes.2]
        | some ss =>
          have hss := spacingScoreOpt_bounds hs
          cases he : entropyScoreOpt l a b with
          | none =>
            simp only [Option.toList, List.append_nil, List.sum_cons, List.sum_nil,
              List.sum_append, List.cons_append, List.nil_append]
            linarith [hu.1, hu.2, hc.1, hc.2, hss.1, hss.2]
          | some es =>
            have hes := entropyScoreOpt_bounds he
            simp only [Option.toList, List.sum_cons, List.sum_nil, List.sum_append,
              List.cons_append, List.nil_append]
            linarith [hu.1, hu.2, hc.1, hc.2, hss.1, hss.2, hes.1, hes.2]

/-- Witness for C1 on a degenerate two-sample batch (score exactly 0). -/
theorem claim_C1_randomness_score_range_witness :
    0 ≤ calculate_randomness_score (fun _ _ => 0) [(0 : ℝ), 0] [0, 0] [0, 0] [0, 0] ∧
    calculate_randomness_score (fun _ _ => 0) [(0 : ℝ), 0] [0, 0] [0, 0] [0, 0] ≤ 100 ∧
    (([(0 : ℝ), 0]).length < 3 →
      calculate_randomness_score (fun _ _ => 0) [(0 : ℝ), 0] [0, 0] [0, 0] [0, 0] = 0) :=
  claim_C1_randomness_score_range (fun _ _ => 0) [(0 : ℝ), 0] [0, 0] [0, 0] [0, 0]
    rfl rfl rfl
    (by intro x hx; simp at hx; subst hx; norm_num)
    (by intro x hx; simp at hx; subst hx; norm_num)
    (by intro x hx; simp at hx; subst hx; norm_num)

end SemhlAnalyze
